import Mathlib

/- Shallow embedding of the PaGMO core under verification:
`src/algorithm/de_self_adaptive.cpp` (self-adaptive differential evolution) and
`src/island.cpp` (the island evolution unit).

Modelling conventions: C++ doubles are rationals; the two random engines of an
island (`m_drng` for reals/normals, `m_urng` for integers) are modelled as
fixed oracle streams of samples plus cursors that advance one position per
draw; exceptions become `Except String`; the worker of an island is modelled
by the trace of observable events its body performs. -/

namespace Pagmo

/-- Oracle streams backing the random engines: `u01` are the uniform-[0,1)
samples produced by `m_drng()` and consumed by `boost::uniform_real`,
`gauss` the standard-normal samples consumed by `boost::normal_distribution`,
`uint` the raw draws consumed by `boost::uniform_int` on `m_urng`. -/
structure Streams where
  u01 : ℕ → ℚ
  gauss : ℕ → ℚ
  uint : ℕ → ℕ

/-- Cursors into the three oracle streams. -/
structure Cnt where
  du : ℕ
  dg : ℕ
  ui : ℕ
deriving DecidableEq, Repr

/-- One call of `m_drng()`: the next uniform-[0,1) sample. -/
def nextU01 (s : Streams) (c : Cnt) : ℚ × Cnt :=
  (s.u01 c.du, { c with du := c.du + 1 })

/-- One standard-normal sample. -/
def nextGauss (s : Streams) (c : Cnt) : ℚ × Cnt :=
  (s.gauss c.dg, { c with dg := c.dg + 1 })

/-- One raw draw of `m_urng`. -/
def nextUInt (s : Streams) (c : Cnt) : ℕ × Cnt :=
  (s.uint c.ui, { c with ui := c.ui + 1 })

/-- Model of `boost::uniform_real<double>(a,b)(m_drng)`: a + (b−a)·u with u the
next uniform-[0,1) sample. -/
def uniformReal (s : Streams) (a b : ℚ) (c : Cnt) : ℚ × Cnt :=
  let p := nextU01 s c
  (a + (b - a) * p.1, p.2)

/-- Model of `boost::normal_distribution<double>(mu,sigma)(m_drng)`:
mu + sigma·g with g the next standard-normal sample. -/
def normalDraw (s : Streams) (mu sigma : ℚ) (c : Cnt) : ℚ × Cnt :=
  let p := nextGauss s c
  (mu + sigma * p.1, p.2)

/-- Model of `boost::uniform_int<int>(lo,hi)(m_urng)`: a value in [lo,hi]. -/
def uniformInt (s : Streams) (lo hi : ℕ) (c : Cnt) : ℕ × Cnt :=
  let p := nextUInt s c
  (lo + p.1 % (hi + 1 - lo), p.2)

/-- The uniform stream delivers samples in [0,1), as `m_drng()` does. -/
def Streams.inRange (s : Streams) : Prop := ∀ k, 0 ≤ s.u01 k ∧ s.u01 k < 1

/-- Component access `x[j]` of a decision/fitness vector (0 when out of range;
indices stay in range along the modelled code paths). -/
def lget (x : List ℚ) (j : ℕ) : ℚ := x.getD j 0

/-- Modelled from the spec: the problem capability surface, spec section 4.1
(`problem/base` is not among the sources): dimensions, the bounds box, the
objective and the strict order `compare_fitness` ("a strictly better than b"). -/
structure Problem where
  dimension : ℕ
  i_dimension : ℕ
  c_dimension : ℕ
  f_dimension : ℕ
  lb : List ℚ
  ub : List ℚ
  objfun : List ℚ → List ℚ
  compare_fitness : List ℚ → List ℚ → Bool

/-- Modelled from the spec: an individual, spec section 3. -/
structure Individual where
  cur_x : List ℚ
  cur_f : List ℚ
  cur_v : List ℚ
  best_x : List ℚ
  best_f : List ℚ
deriving DecidableEq, Repr

/-- Modelled from the spec: a population, spec section 3 (dom_list omitted:
no modelled path reads it). -/
structure Population where
  inds : List Individual
  champion_x : List ℚ
  champion_f : List ℚ
deriving DecidableEq, Repr

/-- Placeholder individual for out-of-range access (never hit on modelled paths). -/
def defaultInd : Individual := ⟨[], [], [], [], []⟩

/-- Modelled from the spec: population::set_x (population code not among the
sources): store the new decision vector, recompute cur_f via the objective,
refresh best_x/best_f if improved, update the champion if improved. -/
def Population.set_x (prob : Problem) (pop : Population) (i : ℕ) (x : List ℚ) : Population :=
  let f := prob.objfun x
  let ind := pop.inds.getD i defaultInd
  let ind1 :=
    if prob.compare_fitness f ind.best_f then
      { ind with cur_x := x, cur_f := f, best_x := x, best_f := f }
    else
      { ind with cur_x := x, cur_f := f }
  let pop1 := { pop with inds := pop.inds.set i ind1 }
  if prob.compare_fitness f pop.champion_f then
    { pop1 with champion_x := x, champion_f := f }
  else pop1

/-- Modelled from the spec: population::set_v — store the new velocity. -/
def Population.set_v (pop : Population) (i : ℕ) (v : List ℚ) : Population :=
  let ind := pop.inds.getD i defaultInd
  { pop with inds := pop.inds.set i { ind with cur_v := v } }

/-- Modelled from the spec: population::get_best_idx — a slot whose best_f is
best under compare_fitness. -/
def Population.get_best_idx (prob : Problem) (pop : Population) : ℕ :=
  (List.range pop.inds.length).foldl
    (fun b i =>
      if prob.compare_fitness (pop.inds.getD i defaultInd).best_f
          (pop.inds.getD b defaultInd).best_f then i else b) 0

/-- Modelled from the spec: population::get_worst_idx — a slot whose best_f is
worst under compare_fitness. -/
def Population.get_worst_idx (prob : Problem) (pop : Population) : ℕ :=
  (List.range pop.inds.length).foldl
    (fun w i =>
      if prob.compare_fitness (pop.inds.getD w defaultInd).best_f
          (pop.inds.getD i defaultInd).best_f then i else w) 0

/-- The de_self_adaptive algorithm object: constructor parameters plus the
mutable adaptation state m_f, m_cr (vectors, initially empty). -/
structure DeSelfAdaptive where
  m_gen : ℕ
  m_f : List ℚ
  m_cr : List ℚ
  m_variant : ℕ
  m_variant_adptv : ℕ
  m_ftol : ℚ
  m_xtol : ℚ
  m_restart : Bool

/-- Lines 132-135 of de_self_adaptive.cpp: refill of m_cr — per entry
normal(0.5, 0.15) under adaptation scheme 1, uniform(0,1) under scheme 0. -/
def fillCR (s : Streams) (adptv : ℕ) : ℕ → Cnt → List ℚ × Cnt
  | 0, c => ([], c)
  | k+1, c =>
    let p := if adptv ≠ 0 then normalDraw s (1/2) (3/20) c else uniformReal s 0 1 c
    let rest := fillCR s adptv k p.2
    (p.1 :: rest.1, rest.2)

/-- Lines 137-140 of de_self_adaptive.cpp: refill of m_f — per entry
normal(0.5, 0.15) under adaptation scheme 1, uniform(0.1, 1) under scheme 0. -/
def fillF (s : Streams) (adptv : ℕ) : ℕ → Cnt → List ℚ × Cnt
  | 0, c => ([], c)
  | k+1, c =>
    let p := if adptv ≠ 0 then normalDraw s (1/2) (3/20) c else uniformReal s (1/10) 1 c
    let rest := fillF s adptv k p.2
    (p.1 :: rest.1, rest.2)

/-- Lines 130-141 of de_self_adaptive.cpp: the F and CR vectors are refilled
when their length differs from NP or the restart flag is set. -/
def initFCR (s : Streams) (adptv NP : ℕ) (restart : Bool) (mcr mf : List ℚ) (c : Cnt) :
    List ℚ × List ℚ × Cnt :=
  if mcr.length ≠ NP ∨ mf.length ≠ NP ∨ restart then
    let pcr := fillCR s adptv NP c
    let pf := fillF s adptv NP pcr.2
    (pcr.1, pf.1, pf.2)
  else (mcr, mf, c)

/-- Lines 148-179 of de_self_adaptive.cpp: rejection sampling of a population
index avoiding `excl`.  The source loops until a draw is admissible (and does
not terminate when the engine never produces one); embedded with fuel, which
covers every execution in which an admissible draw arrives within fuel steps. -/
def pickIdx (s : Streams) (NP : ℕ) (excl : List ℕ) : ℕ → Cnt → ℕ × Cnt
  | 0, c => uniformInt s 0 (NP - 1) c
  | fuel+1, c =>
    let p := uniformInt s 0 (NP - 1) c
    if p.1 ∈ excl then pickIdx s NP excl fuel p.2 else p

/-- Lines 182-191 of de_self_adaptive.cpp: per-trial adaptation of one control
parameter (applied to m_f with uniform range (0.1, 1) and to m_cr with (0, 1)):
scheme 1 is the de-randomized normal walk, scheme 0 keeps the inherited value
with probability 0.9 and redraws it uniformly otherwise. -/
def adaptParam (s : Streams) (adptv : ℕ) (v : List ℚ) (lo hi : ℚ)
    (i r1 r2 r3 r4 r5 r6 : ℕ) (c : Cnt) : ℚ × Cnt :=
  if adptv ≠ 0 then
    let p1 := normalDraw s 0 (1/2) c
    let p2 := normalDraw s 0 (1/2) p1.2
    let p3 := normalDraw s 0 (1/2) p2.2
    (lget v i + p1.1 * (lget v r1 - lget v r2) + p2.1 * (lget v r3 - lget v r4)
      + p3.1 * (lget v r5 - lget v r6), p3.2)
  else
    let p := nextU01 s c
    if p.1 < 9/10 then (lget v i, p.2) else uniformReal s lo hi p.2

/-- The do/while loop of the exponential-crossover variants: perform the
update, advance n cyclically, increment L, then continue while the next
uniform sample is < CR and L < Dc.  Returns the trial, the final value of the
loop counter L, and the cursors.  Invoked with fuel = Dc, which the guard
L < Dc never exhausts. -/
def expLoop (s : Streams) (upd : ℕ → List ℚ → List ℚ) (Dc : ℕ) (CR : ℚ) :
    ℕ → ℕ → ℕ → List ℚ → Cnt → List ℚ × ℕ × Cnt
  | 0, _, L, tmp, c => (tmp, L, c)
  | fuel+1, n, L, tmp, c =>
    let tmp1 := upd n tmp
    let n1 := (n + 1) % Dc
    let L1 := L + 1
    let p := nextU01 s c
    if p.1 < CR ∧ L1 < Dc then expLoop s upd Dc CR fuel n1 L1 tmp1 p.2
    else (tmp1, L1, p.2)

/-- The for loop of the binomial-crossover variants: Dc trials from position n
cyclically; update when the uniform sample is < CR or this is the last trial. -/
def binLoop (s : Streams) (upd : ℕ → List ℚ → List ℚ) (Dc : ℕ) (CR : ℚ) :
    ℕ → ℕ → ℕ → List ℚ → Cnt → List ℚ × Cnt
  | 0, _, _, tmp, c => (tmp, c)
  | rem+1, L, n, tmp, c =>
    let p := nextU01 s c
    let tmp1 := if p.1 < CR ∨ L + 1 = Dc then upd n tmp else tmp
    binLoop s upd Dc CR rem (L+1) ((n+1) % Dc) tmp1 p.2

/-- Lines 193-399 of de_self_adaptive.cpp: construction of the trial vector
tmp for variant V from popold[i].  Every branch of the source first copies
popold[i] into tmp and draws its own start index n; since exactly one branch
runs per V the draw is hoisted.  Returns the trial, the final value of the
loop counter L and the cursors.  (The constructor restricts m_variant to
1..18; for any other value the source leaves tmp stale from the previous
iteration — unreachable, embedded as the untouched copy of popold[i].) -/
def mutate (s : Streams) (variant Dc : ℕ) (F CR : ℚ) (popold : List (List ℚ))
    (gbIter : List ℚ) (i r1 r2 r3 r4 r5 r6 r7 : ℕ) (c : Cnt) : List ℚ × ℕ × Cnt :=
  if variant = 1 then
    expLoop s (fun n t => t.set n (lget gbIter n + F * (lget (popold.getD r2 []) n - lget (popold.getD r3 []) n)))
      Dc CR Dc (uniformInt s 0 (Dc - 1) c).1 0 (popold.getD i []) (uniformInt s 0 (Dc - 1) c).2
  else if variant = 2 then
    expLoop s (fun n t => t.set n (lget (popold.getD r1 []) n + F * (lget (popold.getD r2 []) n - lget (popold.getD r3 []) n)))
      Dc CR Dc (uniformInt s 0 (Dc - 1) c).1 0 (popold.getD i []) (uniformInt s 0 (Dc - 1) c).2
  else if variant = 3 then
    expLoop s (fun n t => t.set n
        (lget t n + F * (lget gbIter n - lget t n) + F * (lget (popold.getD r1 []) n - lget (popold.getD r2 []) n)))
      Dc CR Dc (uniformInt s 0 (Dc - 1) c).1 0 (popold.getD i []) (uniformInt s 0 (Dc - 1) c).2
  else if variant = 4 then
    expLoop s (fun n t => t.set n
        (lget gbIter n + (lget (popold.getD r1 []) n + lget (popold.getD r2 []) n - lget (popold.getD r3 []) n - lget (popold.getD r4 []) n) * F))
      Dc CR Dc (uniformInt s 0 (Dc - 1) c).1 0 (popold.getD i []) (uniformInt s 0 (Dc - 1) c).2
  else if variant = 5 then
    expLoop s (fun n t => t.set n
        (lget (popold.getD r5 []) n + (lget (popold.getD r1 []) n + lget (popold.getD r2 []) n - lget (popold.getD r3 []) n - lget (popold.getD r4 []) n) * F))
      Dc CR Dc (uniformInt s 0 (Dc - 1) c).1 0 (popold.getD i []) (uniformInt s 0 (Dc - 1) c).2
  else if variant = 6 then
    let p := binLoop s (fun n t => t.set n (lget gbIter n + F * (lget (popold.getD r2 []) n - lget (popold.getD r3 []) n)))
      Dc CR Dc 0 (uniformInt s 0 (Dc - 1) c).1 (popold.getD i []) (uniformInt s 0 (Dc - 1) c).2
    (p.1, Dc, p.2)
  else if variant = 7 then
    let p := binLoop s (fun n t => t.set n (lget (popold.getD r1 []) n + F * (lget (popold.getD r2 []) n - lget (popold.getD r3 []) n)))
      Dc CR Dc 0 (uniformInt s 0 (Dc - 1) c).1 (popold.getD i []) (uniformInt s 0 (Dc - 1) c).2
    (p.1, Dc, p.2)
  else if variant = 8 then
    let p := binLoop s (fun n t => t.set n
        (lget t n + F * (lget gbIter n - lget t n) + F * (lget (popold.getD r1 []) n - lget (popold.getD r2 []) n)))
      Dc CR Dc 0 (uniformInt s 0 (Dc - 1) c).1 (popold.getD i []) (uniformInt s 0 (Dc - 1) c).2
    (p.1, Dc, p.2)
  else if variant = 9 then
    let p := binLoop s (fun n t => t.set n
        (lget gbIter n + (lget (popold.getD r1 []) n + lget (popold.getD r2 []) n - lget (popold.getD r3 []) n - lget (popold.getD r4 []) n) * F))
      Dc CR Dc 0 (uniformInt s 0 (Dc - 1) c).1 (popold.getD i []) (uniformInt s 0 (Dc - 1) c).2
    (p.1, Dc, p.2)
  else if variant = 10 then
    let p := binLoop s (fun n t => t.set n
        (lget (popold.getD r5 []) n + (lget (popold.getD r1 []) n + lget (popold.getD r2 []) n - lget (popold.getD r3 []) n - lget (popold.getD r4 []) n) * F))
      Dc CR Dc 0 (uniformInt s 0 (Dc - 1) c).1 (popold.getD i []) (uniformInt s 0 (Dc - 1) c).2
    (p.1, Dc, p.2)
  else if variant = 11 then
    expLoop s (fun n t => t.set n
        (lget gbIter n + F * (lget (popold.getD r1 []) n - lget (popold.getD r2 []) n)
          + F * (lget (popold.getD r3 []) n - lget (popold.getD r4 []) n) + F * (lget (popold.getD r5 []) n - lget (popold.getD r6 []) n)))
      Dc CR Dc (uniformInt s 0 (Dc - 1) c).1 0 (popold.getD i []) (uniformInt s 0 (Dc - 1) c).2
  else if variant = 12 then
    let p := binLoop s (fun n t => t.set n
        (lget gbIter n + F * (lget (popold.getD r1 []) n - lget (popold.getD r2 []) n)
          + F * (lget (popold.getD r3 []) n - lget (popold.getD r4 []) n) + F * (lget (popold.getD r5 []) n - lget (popold.getD r6 []) n)))
      Dc CR Dc 0 (uniformInt s 0 (Dc - 1) c).1 (popold.getD i []) (uniformInt s 0 (Dc - 1) c).2
    (p.1, Dc, p.2)
  else if variant = 13 then
    expLoop s (fun n t => t.set n
        (lget (popold.getD r7 []) n + F * (lget (popold.getD r1 []) n - lget (popold.getD r2 []) n)
          + F * (lget (popold.getD r3 []) n - lget (popold.getD r4 []) n) + F * (lget (popold.getD r5 []) n - lget (popold.getD r6 []) n)))
      Dc CR Dc (uniformInt s 0 (Dc - 1) c).1 0 (popold.getD i []) (uniformInt s 0 (Dc - 1) c).2
  else if variant = 14 then
    let p := binLoop s (fun n t => t.set n
        (lget (popold.getD r7 []) n + F * (lget (popold.getD r1 []) n - lget (popold.getD r2 []) n)
          + F * (lget (popold.getD r3 []) n - lget (popold.getD r4 []) n) + F * (lget (popold.getD r5 []) n - lget (popold.getD r6 []) n)))
      Dc CR Dc 0 (uniformInt s 0 (Dc - 1) c).1 (popold.getD i []) (uniformInt s 0 (Dc - 1) c).2
    (p.1, Dc, p.2)
  else if variant = 15 then
    expLoop s (fun n t => t.set n
        (lget (popold.getD r7 []) n + F * (lget (popold.getD r1 []) n - lget (popold.getD i []) n) + F * (lget (popold.getD r3 []) n - lget (popold.getD r4 []) n)))
      Dc CR Dc (uniformInt s 0 (Dc - 1) c).1 0 (popold.getD i []) (uniformInt s 0 (Dc - 1) c).2
  else if variant = 16 then
    let p := binLoop s (fun n t => t.set n
        (lget (popold.getD r7 []) n + F * (lget (popold.getD r1 []) n - lget (popold.getD i []) n) + F * (lget (popold.getD r3 []) n - lget (popold.getD r4 []) n)))
      Dc CR Dc 0 (uniformInt s 0 (Dc - 1) c).1 (popold.getD i []) (uniformInt s 0 (Dc - 1) c).2
    (p.1, Dc, p.2)
  else if variant = 17 then
    expLoop s (fun n t => t.set n
        (lget (popold.getD r7 []) n + F * (lget (popold.getD r1 []) n - lget (popold.getD i []) n) + F * (lget gbIter n - lget (popold.getD r4 []) n)))
      Dc CR Dc (uniformInt s 0 (Dc - 1) c).1 0 (popold.getD i []) (uniformInt s 0 (Dc - 1) c).2
  else if variant = 18 then
    let p := binLoop s (fun n t => t.set n
        (lget (popold.getD r7 []) n + F * (lget (popold.getD r1 []) n - lget (popold.getD i []) n) + F * (lget gbIter n - lget (popold.getD r4 []) n)))
      Dc CR Dc 0 (uniformInt s 0 (Dc - 1) c).1 (popold.getD i []) (uniformInt s 0 (Dc - 1) c).2
    (p.1, Dc, p.2)
  else ((popold.getD i []), 0, (uniformInt s 0 (Dc - 1) c).2)

/-- Lines 403-408 of de_self_adaptive.cpp: the feasibility loop over i2 < Dc —
a component outside its box is redrawn uniformly in [lb[i2], ub[i2]]. -/
def repairLoop (s : Streams) (lb ub : List ℚ) : ℕ → ℕ → List ℚ → Cnt → List ℚ × Cnt
  | 0, _, tmp, c => (tmp, c)
  | rem+1, i2, tmp, c =>
    if lget tmp i2 < lget lb i2 ∨ lget ub i2 < lget tmp i2 then
      let p := uniformReal s (lget lb i2) (lget ub i2) c
      repairLoop s lb ub rem (i2+1) (tmp.set i2 p.1) p.2
    else repairLoop s lb ub rem (i2+1) tmp c

/-- Feasibility repair of the trial vector over the Dc continuous components. -/
def repair (s : Streams) (Dc : ℕ) (lb ub tmp : List ℚ) (c : Cnt) : List ℚ × Cnt :=
  repairLoop s lb ub Dc 0 tmp c

/-- The state threaded through the main DE iterations of evolve. -/
structure EvState where
  pop : Population
  popold : List (List ℚ)
  popnew : List (List ℚ)
  fit : List (List ℚ)
  mf : List ℚ
  mcr : List ℚ
  gbX : List ℚ
  gbfit : List ℚ
  gbIter : List ℚ
  cnt : Cnt

/-- Lines 410-434 of de_self_adaptive.cpp: selection.  If the trial improves on
fit[i], the code stores fit, popnew, the adapted CR and F, then overwrites tmp
in place with the velocity tmp − cur_x (line 422, std::transform) and writes
the population via set_x(i, popnew[i]) and set_v(i, tmp); when the new fitness
also beats gbfit, gbX is assigned tmp — which at that point holds the
velocity, not the trial.  Otherwise popnew[i] = popold[i]. -/
def selectStep (prob : Problem) (i : ℕ) (F CR : ℚ) (tmp : List ℚ) (st : EvState) : EvState :=
  let newf := prob.objfun tmp
  if prob.compare_fitness newf (st.fit.getD i []) then
    let fit1 := st.fit.set i newf
    let popnew1 := st.popnew.set i tmp
    let mcr1 := st.mcr.set i CR
    let mf1 := st.mf.set i F
    let vel := List.zipWith (fun a b => a - b) tmp (st.pop.inds.getD i defaultInd).cur_x
    let pop1 := Population.set_v (Population.set_x prob st.pop i (popnew1.getD i [])) i vel
    if prob.compare_fitness newf st.gbfit then
      { st with
        fit := fit1
        popnew := popnew1
        mcr := mcr1
        mf := mf1
        pop := pop1
        gbfit := newf
        gbX := vel }
    else
      { st with fit := fit1, popnew := popnew1, mcr := mcr1, mf := mf1, pop := pop1 }
  else
    { st with popnew := st.popnew.set i (st.popold.getD i []) }

/-- Lines 147-434 of de_self_adaptive.cpp: the body of the loop through the
deme for individual i — pick r1..r7, adapt F and CR, mutate, repair, select. -/
def demeStep (s : Streams) (prob : Problem) (variant adptv Dc NP i : ℕ) (st : EvState) : EvState :=
  let fuel := NP * NP + NP
  let p1 := pickIdx s NP [i] fuel st.cnt
  let r1 := p1.1
  let p2 := pickIdx s NP [i, r1] fuel p1.2
  let r2 := p2.1
  let p3 := pickIdx s NP [i, r1, r2] fuel p2.2
  let r3 := p3.1
  let p4 := pickIdx s NP [i, r1, r2, r3] fuel p3.2
  let r4 := p4.1
  let p5 := pickIdx s NP [i, r1, r2, r3, r4] fuel p4.2
  let r5 := p5.1
  let p6 := pickIdx s NP [i, r1, r2, r3, r4, r5] fuel p5.2
  let r6 := p6.1
  let p7 := pickIdx s NP [i, r1, r2, r3, r4, r5, r6] fuel p6.2
  let r7 := p7.1
  let pF := adaptParam s adptv st.mf (1/10) 1 i r1 r2 r3 r4 r5 r6 p7.2
  let F := pF.1
  let pCR := adaptParam s adptv st.mcr 0 1 i r1 r2 r3 r4 r5 r6 pF.2
  let CR := pCR.1
  let pm := mutate s variant Dc F CR st.popold st.gbIter i r1 r2 r3 r4 r5 r6 r7 pCR.2
  let pr := repair s Dc prob.lb prob.ub pm.1 pm.2.2
  selectStep prob i F CR pr.1 { st with cnt := pr.2 }

/-- The loop through the deme: individuals 0..NP−1 in order. -/
def sweep (s : Streams) (prob : Problem) (variant adptv Dc NP : ℕ) (st : EvState) : EvState :=
  (List.range NP).foldl (fun t i => demeStep s prob variant adptv Dc NP i t) st

/-- Lines 147-442 of de_self_adaptive.cpp: one generation — the deme sweep,
then gbIter := gbX and the swap of popold with popnew. -/
def genStep (s : Streams) (prob : Problem) (variant adptv Dc NP : ℕ) (st : EvState) : EvState :=
  let st1 := sweep s prob variant adptv Dc NP st
  { st1 with gbIter := st1.gbX, popold := st1.popnew, popnew := st1.popold }

/-- Lines 445-468 of de_self_adaptive.cpp: the exit conditions, guarded by
gen % 40 being non-zero — dx is the sum over the D components of the absolute
difference between the best_x of the worst and of the best individual; exit
when dx < m_xtol, else when the absolute best_f gap is < m_ftol. -/
def checkExit (prob : Problem) (xtol ftol : ℚ) (D gen : ℕ) (pop : Population) : Bool :=
  if gen % 40 ≠ 0 then
    let bw := (pop.inds.getD (pop.get_worst_idx prob) defaultInd).best_x
    let bb := (pop.inds.getD (pop.get_best_idx prob) defaultInd).best_x
    let dx := (List.range D).foldl (fun acc j => acc + |lget bw j - lget bb j|) 0
    if dx < xtol then true
    else
      let bfw := (pop.inds.getD (pop.get_worst_idx prob) defaultInd).best_f
      let bfb := (pop.inds.getD (pop.get_best_idx prob) defaultInd).best_f
      decide (|lget bfw 0 - lget bfb 0| < ftol)
  else false

/-- The main DE iterations (lines 145-471): run generations, stopping early
when checkExit fires after a generation. -/
def deLoop (s : Streams) (prob : Problem) (variant adptv Dc NP D : ℕ) (xtol ftol : ℚ) :
    ℕ → ℕ → EvState → EvState
  | 0, _, st => st
  | fuel+1, gen, st =>
    let st1 := genStep s prob variant adptv Dc NP st
    if checkExit prob xtol ftol D gen st1.pop then st1
    else deLoop s prob variant adptv Dc NP D xtol ftol fuel (gen+1) st1

/-- Lines 78-476 of de_self_adaptive.cpp: de_self_adaptive::evolve — the four
suitability checks, the m_gen = 0 early return, extraction of chromosomes and
fitness, initialisation of the global bests from the champion, lazy
initialisation of the F and CR vectors, then the main DE iterations.  Returns
the updated algorithm state (m_f, m_cr), population and cursors. -/
def DeSelfAdaptive.evolve (a : DeSelfAdaptive) (s : Streams) (prob : Problem)
    (pop : Population) (c : Cnt) : Except String (DeSelfAdaptive × Population × Cnt) :=
  let D := prob.dimension
  let Dc := D - prob.i_dimension
  let NP := pop.inds.length
  if Dc = 0 then
    .error "There is no continuous part in the problem decision vector for DE to optimise"
  else if prob.c_dimension ≠ 0 then
    .error "The problem is not box constrained and DE is not suitable to solve it"
  else if prob.f_dimension ≠ 1 then
    .error "The problem is not single objective and DE is not suitable to solve it"
  else if NP < 8 then
    .error "for DE Self-Adaptive at least 8 individuals in the population are needed"
  else if a.m_gen = 0 then .ok (a, pop, c)
  else
    let popold := pop.inds.map (fun ind => ind.cur_x)
    let fit := pop.inds.map (fun ind => ind.cur_f)
    let pin := initFCR s a.m_variant_adptv NP a.m_restart a.m_cr a.m_f c
    let st0 : EvState :=
      { pop := pop, popold := popold, popnew := popold, fit := fit,
        mf := pin.2.1, mcr := pin.1, gbX := pop.champion_x, gbfit := pop.champion_f,
        gbIter := pop.champion_x, cnt := pin.2.2 }
    let st1 := deLoop s prob a.m_variant a.m_variant_adptv Dc NP D a.m_xtol a.m_ftol a.m_gen 0 st0
    .ok ({ a with m_f := st1.mf, m_cr := st1.mcr }, st1.pop, st1.cnt)

/-- Observable events performed by an island worker body. -/
inductive WEvent where
  | syncStart
  | preEvolution
  | evolveCall
  | postEvolution
  | interruptPoint
deriving DecidableEq, Repr

/-- The island state relevant to the modelled operations of island.cpp:
whether the worker handle m_evo_thread is non-null, the cumulative evolution
time m_evo_time, the archipelago back-reference, and the two is_blocking
sources.  m_evo_time is a std::size_t of a platform word width W (the source
comment at lines 173-175 notes it wraps after about 49 days on 32-bit
machines); it is represented as a natural number and every operation that
adds to it reduces modulo 2^W, so all reachable values stay below 2^W. -/
structure Island where
  evoThread : Bool
  evoTime : ℕ
  hasArchi : Bool
  probBlocking : Bool
  algoBlocking : Bool
deriving DecidableEq, Repr

/-- Lines 483-486 of island.cpp: blocking iff the problem or the algorithm is. -/
def Island.is_blocking (isl : Island) : Bool := isl.probBlocking || isl.algoBlocking

/-- Lines 123-128 of island.cpp: join waits for any pending worker; the handle
m_evo_thread is not cleared. -/
def Island.join (isl : Island) : Island := isl

/-- Lines 274-291 of island.cpp: the events of one iteration of the
int_evolver::juice_impl loop — pre_evolution and post_evolution when an
archipelago is present, the evolve call, and the interruption point only when
the island is non-blocking. -/
def intEvolverBody (hasArchi blocking : Bool) : List WEvent :=
  (if hasArchi then [WEvent.preEvolution] else []) ++ [WEvent.evolveCall] ++
  (if hasArchi then [WEvent.postEvolution] else []) ++
  (if !blocking then [WEvent.interruptPoint] else [])

/-- Lines 267-292 of island.cpp: the event trace of int_evolver::juice_impl —
the start barrier only when an archipelago is present and the island is
non-blocking, then n iterations of the loop body. -/
def juiceImplInt (hasArchi blocking : Bool) (n : ℕ) : List WEvent :=
  (if hasArchi && !blocking then [WEvent.syncStart] else []) ++
  (List.replicate n (intEvolverBody hasArchi blocking)).flatten

/-- Lines 311-321 and 395-405 of island.cpp: at the end of a worker run the
measured elapsed milliseconds are added to m_evo_time only when non-negative;
a negative measurement from a low-resolution clock is discarded.  m_evo_time
is a std::size_t of width W, so the addition wraps modulo 2^W; an elapsed
value the checked boost::numeric_cast cannot represent in std::size_t raises,
is caught, and leaves m_evo_time unchanged. -/
def accumEvoTime (W : ℕ) (isl : Island) (diffMs : ℤ) : Island :=
  if 0 ≤ diffMs ∧ diffMs.toNat < 2 ^ W then
    { isl with evoTime := (isl.evoTime + diffMs.toNat) % 2 ^ W }
  else isl

/-- Outcome of island::evolve — the island, the event trace of the worker body, the
part of it executed synchronously on the calling thread, and whether a
background thread was created. -/
structure EvolveOutcome where
  isl : Island
  workerTrace : List WEvent
  syncTrace : List WEvent
  spawned : Bool
deriving DecidableEq, Repr

/-- Lines 334-348 of island.cpp together with int_evolver::operator(): join,
then — blocking — run the whole worker body synchronously on the calling
thread (no thread created, the handle untouched, evoTime accumulated), or —
non-blocking — create a background thread and store its handle.  elapsedMs is
the clock difference the worker measures at its end. -/
def Island.evolve (isl : Island) (W n : ℕ) (elapsedMs : ℤ) : EvolveOutcome :=
  let isl0 := isl.join
  if isl0.is_blocking then
    { isl := accumEvoTime W isl0 elapsedMs,
      workerTrace := juiceImplInt isl0.hasArchi true n,
      syncTrace := juiceImplInt isl0.hasArchi true n,
      spawned := false }
  else
    { isl := { isl0 with evoThread := true },
      workerTrace := juiceImplInt isl0.hasArchi false n,
      syncTrace := [],
      spawned := true }

/-- Lines 439-445 of island.cpp: interrupt — when the worker handle exists,
request interruption and throw a runtime error; otherwise do nothing. -/
def Island.interrupt (isl : Island) : Except String Island :=
  if isl.evoThread then .error "evolution interrupted" else .ok isl

/-- A decision vector lies in the box [lb, ub] componentwise. -/
def inBox (lb ub x : List ℚ) : Prop :=
  ∀ j, j < x.length → lget lb j ≤ lget x j ∧ lget x j ≤ lget ub j

/-- All decision vectors the sweep works on lie in the box: the popold and
popnew snapshots and the current positions stored in the population. -/
def stInBox (lb ub : List ℚ) (st : EvState) : Prop :=
  (∀ x ∈ st.popold, inBox lb ub x) ∧ (∀ x ∈ st.popnew, inBox lb ub x) ∧
  (∀ ind ∈ st.pop.inds, inBox lb ub ind.cur_x)

/-- Example fixture: a one-dimensional box-constrained single-objective
problem minimising its single coordinate. -/
def probEx : Problem :=
  { dimension := 1, i_dimension := 0, c_dimension := 0, f_dimension := 1,
    lb := [0], ub := [10],
    objfun := fun x => [lget x 0],
    compare_fitness := fun a b => decide (lget a 0 < lget b 0) }

/-- Example fixture: constant oracle streams. -/
def sEx : Streams := { u01 := fun _ => 1/2, gauss := fun _ => 0, uint := fun _ => 0 }

/-- Example fixture: an individual of probEx sitting at 4. -/
def indEx : Individual := { cur_x := [4], cur_f := [4], cur_v := [0], best_x := [4], best_f := [4] }

/-- Example fixture: a sweep state holding the single individual indEx. -/
def stEx : EvState :=
  { pop := { inds := [indEx], champion_x := [4], champion_f := [4] },
    popold := [[4]], popnew := [[4]], fit := [[4]],
    mf := [0], mcr := [0], gbX := [4], gbfit := [4], gbIter := [4],
    cnt := { du := 0, dg := 0, ui := 0 } }

/-- Example fixture: an individual of probEx sitting at 1. -/
def indEx1 : Individual := { cur_x := [1], cur_f := [1], cur_v := [0], best_x := [1], best_f := [1] }

/-- Example fixture: a population of 8 copies of indEx1. -/
def popEx8 : Population :=
  { inds := List.replicate 8 indEx1, champion_x := [1], champion_f := [1] }

/-- Example fixture: a SADE object with a zero generation budget. -/
def algoEx0 : DeSelfAdaptive :=
  { m_gen := 0, m_f := [], m_cr := [], m_variant := 2, m_variant_adptv := 0,
    m_ftol := 1/1000000, m_xtol := 1/1000000, m_restart := false }

/-- Example fixture: a blocking island that never launched a worker. -/
def islEx : Island :=
  { evoThread := false, evoTime := 0, hasArchi := false, probBlocking := true, algoBlocking := false }

/-- Example fixture: a non-blocking island that never launched a worker. -/
def islExNB : Island :=
  { evoThread := false, evoTime := 0, hasArchi := true, probBlocking := false, algoBlocking := false }

/-- Example fixture: an island whose evolution time sits at the maximum of a
32-bit std::size_t. -/
def islWrap : Island :=
  { evoThread := false, evoTime := 2 ^ 32 - 1, hasArchi := false,
    probBlocking := true, algoBlocking := false }

theorem lget_set_ne (t : List ℚ) (n j : ℕ) (v : ℚ) (h : j ≠ n) :
    lget (t.set n v) j = lget t j := by
  simp [lget, List.getD, List.getElem?_set_ne (Ne.symm h)]

theorem lget_set_self (t : List ℚ) (n : ℕ) (v : ℚ) (h : n < t.length) :
    lget (t.set n v) n = v := by
  simp [lget, List.getD, List.getElem?_set_self, h]

theorem inBox_nil (lb ub : List ℚ) : inBox lb ub [] := by
  intro j hj
  simp at hj

theorem foldl_add_abs_eq_sum (f : ℕ → ℚ) (D : ℕ) :
    (List.range D).foldl (fun acc j => acc + f j) 0 = ∑ j ∈ Finset.range D, f j := by
  induction D with
  | zero => simp
  | succ k ih =>
    rw [List.range_succ, List.foldl_append, ih, Finset.sum_range_succ]
    simp

theorem count_intEvolverBody (a b : Bool) :
    (intEvolverBody a b).count WEvent.evolveCall = 1 := by
  cases a <;> cases b <;> rfl

theorem juiceImplInt_count (a b : Bool) (n : ℕ) :
    (juiceImplInt a b n).count WEvent.evolveCall = n := by
  induction n with
  | zero => cases a <;> cases b <;> rfl
  | succ k ih =>
    simp only [juiceImplInt, List.replicate_succ, List.flatten_cons, List.count_append] at ih ⊢
    have hb := count_intEvolverBody a b
    omega

theorem juiceImplInt_blocking_no_sync (a : Bool) (n : ℕ) :
    WEvent.syncStart ∉ juiceImplInt a true n ∧
      WEvent.interruptPoint ∉ juiceImplInt a true n := by
  constructor <;>
  · simp only [juiceImplInt, List.mem_append, List.mem_flatten, List.mem_replicate]
    rintro (h | ⟨l, ⟨-, rfl⟩, hl⟩)
    · cases a <;> simp at h
    · cases a <;> simp [intEvolverBody] at hl

/-- C7: island.evolve(n) runs a worker whose body calls algorithm.evolve on
the population exactly n times; when the island is blocking (its problem or
algorithm is blocking), the worker body executes synchronously on the calling
thread, no background thread is created, the archipelago start barrier is
never awaited and no interruption check-point is polled. -/
theorem island_evolve_calls_and_blocking_sync (isl : Island) (W n : ℕ) (e : ℤ) :
    ((isl.evolve W n e).workerTrace).count WEvent.evolveCall = n ∧
    (isl.is_blocking = true →
      (isl.evolve W n e).spawned = false ∧
      (isl.evolve W n e).syncTrace = (isl.evolve W n e).workerTrace ∧
      WEvent.syncStart ∉ (isl.evolve W n e).workerTrace ∧
      WEvent.interruptPoint ∉ (isl.evolve W n e).workerTrace) := by
  constructor
  · simp only [Island.evolve, Island.join]
    split <;> exact juiceImplInt_count _ _ _
  · intro hb
    simp only [Island.evolve, Island.join]
    rw [if_pos hb]
    exact ⟨rfl, rfl, (juiceImplInt_blocking_no_sync _ _).1,
      (juiceImplInt_blocking_no_sync _ _).2⟩

/-- C7 witness: on the blocking fixture island, evolve(3) performs exactly 3
evolve calls synchronously, spawns nothing, and its trace has no barrier wait
and no interruption point. -/
theorem island_evolve_calls_and_blocking_sync_witness :
    ((islEx.evolve 32 3 5).workerTrace).count WEvent.evolveCall = 3 ∧
      (islEx.evolve 32 3 5).spawned = false ∧
      WEvent.syncStart ∉ (islEx.evolve 32 3 5).workerTrace ∧
      WEvent.interruptPoint ∉ (islEx.evolve 32 3 5).workerTrace := by
  have h := island_evolve_calls_and_blocking_sync islEx 32 3 5
  have hb : islEx.is_blocking = true := by decide
  exact ⟨h.1, (h.2 hb).1, (h.2 hb).2.2.1, (h.2 hb).2.2.2⟩

/-- C8 counterexample: m_evo_time is a std::size_t, so the += of the
end-of-worker accumulation wraps — with a 32-bit std::size_t, an island whose
evolution time sits at 2^32 − 1 and a measured non-negative elapsed time of
1 ms make the accumulation wrap to 0, a strict decrease, refuting the claimed
unconditional monotonicity (the source comment at island.cpp lines 173-175
documents the wrap). -/
theorem evoTime_wrap_decreases :
    (accumEvoTime 32 islWrap 1).evoTime = 0 ∧
      (accumEvoTime 32 islWrap 1).evoTime < islWrap.evoTime := by
  constructor
  · norm_num [accumEvoTime, islWrap]
  · norm_num [accumEvoTime, islWrap]

/-- C8 (amended): the end-of-worker accumulation (shared by int_evolver and
t_evolver) adds the measured elapsed milliseconds modulo 2^W exactly when
they are non-negative and representable in std::size_t, and discards a
negative measurement; the cumulative evolution time never decreases through
join, evolve, interrupt or the accumulation, provided the accumulation does
not overflow the counter (evoTime + elapsed < 2^W). -/
theorem island_evoTime_monotone_no_overflow (W : ℕ) (isl : Island) (d : ℤ) (n : ℕ) (e : ℤ) :
    (isl.evoTime + d.toNat < 2 ^ W →
      isl.evoTime ≤ (accumEvoTime W isl d).evoTime) ∧
    (accumEvoTime W isl d).evoTime =
      (if 0 ≤ d ∧ d.toNat < 2 ^ W then (isl.evoTime + d.toNat) % 2 ^ W
        else isl.evoTime) ∧
    (isl.join).evoTime = isl.evoTime ∧
    (isl.evoTime + e.toNat < 2 ^ W →
      isl.evoTime ≤ ((isl.evolve W n e).isl).evoTime) ∧
    ((isl.interrupt).toOption.getD isl).evoTime = isl.evoTime := by
  have hacc : ∀ d' : ℤ, isl.evoTime + d'.toNat < 2 ^ W →
      isl.evoTime ≤ (accumEvoTime W isl d').evoTime := by
    intro d' h
    unfold accumEvoTime
    split
    · simp only
      rw [Nat.mod_eq_of_lt h]
      exact Nat.le_add_right _ _
    · exact le_refl _
  refine ⟨hacc d, ?_, rfl, ?_, ?_⟩
  · unfold accumEvoTime
    split <;> rfl
  · intro h
    simp only [Island.evolve, Island.join]
    split
    · exact hacc e h
    · exact le_refl _
  · unfold Island.interrupt
    split <;> rfl

/-- C8 witness: on the blocking fixture island at evolution time 0, a 5 ms
measurement does not overflow a 32-bit counter and the accumulated time is
no smaller. -/
theorem island_evoTime_monotone_no_overflow_witness :
    islEx.evoTime ≤ (accumEvoTime 32 islEx 5).evoTime :=
  (island_evoTime_monotone_no_overflow 32 islEx 5 1 0).1 (by norm_num [islEx])

/-- C9: interrupt raises a runtime error exactly when the worker handle
exists; join does not clear the handle, so even after a background worker has
terminated and been joined, interrupt still errors; on an island that never
launched a background worker it returns the island unchanged. -/
theorem island_interrupt_error_iff_handle (isl : Island) (W n : ℕ) (e : ℤ) :
    (isl.evoThread = false → isl.interrupt = .ok isl) ∧
    (isl.evoThread = true → isl.interrupt = .error "evolution interrupted") ∧
    (isl.join).evoThread = isl.evoThread ∧
    (isl.is_blocking = false →
      ((isl.evolve W n e).isl.join).interrupt = .error "evolution interrupted") := by
  refine ⟨?_, ?_, rfl, ?_⟩
  · intro h
    simp [Island.interrupt, h]
  · intro h
    simp [Island.interrupt, h]
  · intro h
    simp [Island.evolve, Island.join, Island.interrupt, h]

/-- C9 witness: on the non-blocking fixture island with no worker handle,
interrupt is a no-op, and after evolve(1) plus join it raises. -/
theorem island_interrupt_error_iff_handle_witness :
    Island.interrupt islExNB = .ok islExNB ∧
      ((islExNB.evolve 32 1 0).isl.join).interrupt = .error "evolution interrupted" := by
  have h := island_interrupt_error_iff_handle islExNB 32 1 0
  exact ⟨h.1 rfl, h.2.2.2 rfl⟩

/-- C2: evolve raises a value error at its start if and only if the continuous
dimension Dc is zero, or the constraint dimension is non-zero, or the fitness
dimension is not 1, or the population size is below 8; otherwise it returns
normally. -/
theorem evolve_value_error_iff (a : DeSelfAdaptive) (s : Streams) (prob : Problem)
    (pop : Population) (c : Cnt) :
    (∃ msg, a.evolve s prob pop c = .error msg) ↔
      (prob.dimension - prob.i_dimension = 0 ∨ prob.c_dimension ≠ 0 ∨
        prob.f_dimension ≠ 1 ∨ pop.inds.length < 8) := by
  unfold DeSelfAdaptive.evolve
  by_cases h1 : prob.dimension - prob.i_dimension = 0 <;>
    by_cases h2 : prob.c_dimension = 0 <;>
      by_cases h3 : prob.f_dimension = 1 <;>
        by_cases h4 : pop.inds.length < 8 <;>
          by_cases h5 : a.m_gen = 0 <;>
            simp [h1, h2, h3, h4, h5]

theorem fillCR_normal (s : Streams) (adptv : ℕ) (h : adptv ≠ 0) (k : ℕ) :
    ∀ c, fillCR s adptv k c =
      (((List.range k).map fun i => 1/2 + 3/20 * s.gauss (c.dg + i)),
        { c with dg := c.dg + k }) := by
  induction k with
  | zero => intro c; simp [fillCR]
  | succ m ih =>
    intro c
    simp only [fillCR, if_pos h, normalDraw, nextGauss]
    rw [ih]
    have harg : ∀ i, c.dg + 1 + i = c.dg + (i + 1) := by omega
    simp [List.range_succ_eq_map, List.map_map, Function.comp, harg, Nat.add_assoc,
      Nat.add_comm 1 m]

theorem fillF_normal (s : Streams) (adptv : ℕ) (h : adptv ≠ 0) (k : ℕ) :
    ∀ c, fillF s adptv k c =
      (((List.range k).map fun i => 1/2 + 3/20 * s.gauss (c.dg + i)),
        { c with dg := c.dg + k }) := by
  induction k with
  | zero => intro c; simp [fillF]
  | succ m ih =>
    intro c
    simp only [fillF, if_pos h, normalDraw, nextGauss]
    rw [ih]
    have harg : ∀ i, c.dg + 1 + i = c.dg + (i + 1) := by omega
    simp [List.range_succ_eq_map, List.map_map, Function.comp, harg, Nat.add_assoc,
      Nat.add_comm 1 m]

theorem fillCR_uniform (s : Streams) (k : ℕ) :
    ∀ c, fillCR s 0 k c =
      (((List.range k).map fun i => 0 + (1 - 0) * s.u01 (c.du + i)),
        { c with du := c.du + k }) := by
  induction k with
  | zero => intro c; simp [fillCR]
  | succ m ih =>
    intro c
    simp only [fillCR, if_neg (by omega : ¬ (0 : ℕ) ≠ 0), uniformReal, nextU01]
    rw [ih]
    have harg : ∀ i, c.du + 1 + i = c.du + (i + 1) := by omega
    simp [List.range_succ_eq_map, List.map_map, Function.comp, harg, Nat.add_assoc,
      Nat.add_comm 1 m]

theorem fillF_uniform (s : Streams) (k : ℕ) :
    ∀ c, fillF s 0 k c =
      (((List.range k).map fun i => 1/10 + (1 - 1/10) * s.u01 (c.du + i)),
        { c with du := c.du + k }) := by
  induction k with
  | zero => intro c; simp [fillF]
  | succ m ih =>
    intro c
    simp only [fillF, if_neg (by omega : ¬ (0 : ℕ) ≠ 0), uniformReal, nextU01]
    rw [ih]
    have harg : ∀ i, c.du + 1 + i = c.du + (i + 1) := by omega
    simp [List.range_succ_eq_map, List.map_map, Function.comp, harg, Nat.add_assoc,
      Nat.add_comm 1 m]

/-- C6: on each call of evolve the F and CR vectors are re-initialised exactly
when their length differs from NP or the restart flag is set (so restart
forces re-initialisation even when the sizes already match); under adaptation
scheme 1 every entry of both vectors is a fresh normal(0.5, 0.15) draw, and
under scheme 0 the CR entries are fresh uniform(0, 1) draws and the F entries
fresh uniform(0.1, 1) draws; otherwise both vectors and the random state are
left untouched. -/
theorem initFCR_reinit_iff (s : Streams) (adptv NP : ℕ) (restart : Bool)
    (mcr mf : List ℚ) (c : Cnt) :
    initFCR s adptv NP restart mcr mf c =
      if mcr.length ≠ NP ∨ mf.length ≠ NP ∨ restart = true then
        if adptv ≠ 0 then
          ((List.range NP).map fun i => 1/2 + 3/20 * s.gauss (c.dg + i),
           (List.range NP).map fun i => 1/2 + 3/20 * s.gauss (c.dg + NP + i),
           { c with dg := c.dg + NP + NP })
        else
          ((List.range NP).map fun i => 0 + (1 - 0) * s.u01 (c.du + i),
           (List.range NP).map fun i => 1/10 + (1 - 1/10) * s.u01 (c.du + NP + i),
           { c with du := c.du + NP + NP })
      else (mcr, mf, c) := by
  unfold initFCR
  by_cases hcond : mcr.length ≠ NP ∨ mf.length ≠ NP ∨ restart = true
  · rw [if_pos hcond, if_pos hcond]
    by_cases ha : adptv ≠ 0
    · rw [if_pos ha]
      simp only [fillCR_normal s adptv ha, fillF_normal s adptv ha]
    · rw [if_neg ha]
      have ha0 : adptv = 0 := by omega
      subst ha0
      simp only [fillCR_uniform s, fillF_uniform s]
  · rw [if_neg hcond, if_neg hcond]

theorem expLoop_counter_mono (s : Streams) (upd : ℕ → List ℚ → List ℚ) (Dc : ℕ) (CR : ℚ) :
    ∀ fuel n L tmp c, L ≤ (expLoop s upd Dc CR fuel n L tmp c).2.1 := by
  intro fuel
  induction fuel with
  | zero => intro n L tmp c; simp [expLoop]
  | succ m ih =>
    intro n L tmp c
    simp only [expLoop]
    split
    · exact le_trans (Nat.le_succ L) (ih _ _ _ _)
    · exact Nat.le_succ L

theorem expLoop_counter_succ (s : Streams) (upd : ℕ → List ℚ → List ℚ) (Dc : ℕ) (CR : ℚ)
    (fuel n L : ℕ) (tmp : List ℚ) (c : Cnt) :
    L + 1 ≤ (expLoop s upd Dc CR (fuel + 1) n L tmp c).2.1 := by
  simp only [expLoop]
  split
  · exact expLoop_counter_mono s upd Dc CR _ _ _ _ _
  · exact le_refl _

/-- C10: for every exponential-crossover variant (1, 2, 3, 4, 5, 11, 13, 15,
17) the crossover do/while loop performs its body — and hence updates a trial
component — at least once on every trial, whatever the current crossover
probability CR is (in particular when CR is zero or negative), because the
continuation test on the uniform draw is evaluated only after the first
update: the loop counter L of the source ends at a value of at least 1. -/
theorem exp_variants_update_at_least_once (s : Streams) (variant Dc : ℕ) (F CR : ℚ)
    (popold : List (List ℚ)) (gbIter : List ℚ) (i r1 r2 r3 r4 r5 r6 r7 : ℕ) (c : Cnt)
    (hV : variant ∈ [1, 2, 3, 4, 5, 11, 13, 15, 17]) (hDc : 0 < Dc) :
    1 ≤ (mutate s variant Dc F CR popold gbIter i r1 r2 r3 r4 r5 r6 r7 c).2.1 := by
  obtain ⟨d, rfl⟩ : ∃ d, Dc = d + 1 := ⟨Dc - 1, by omega⟩
  fin_cases hV <;>
    · simp only [mutate]
      norm_num
      exact expLoop_counter_succ s _ (d + 1) CR d _ 0 _ _

/-- C10 witness: variant 1 with Dc = 1 and CR = 0 still performs one update. -/
theorem exp_variants_update_at_least_once_witness :
    1 ≤ (mutate sEx 1 1 0 0 [[1]] [0] 0 0 0 0 0 0 0 0 ⟨0, 0, 0⟩).2.1 :=
  exp_variants_update_at_least_once sEx 1 1 0 0 [[1]] [0] 0 0 0 0 0 0 0 0 ⟨0, 0, 0⟩
    (by decide) (by decide)

/-- C5: for an individual i of the sweep, when the evaluated trial does not
improve on fit[i] (compare_fitness is false), the selection leaves fit, the
population slot (cur_x and cur_v), the adaptation vectors F and CR, and the
global bests unchanged and merely copies popold[i] into popnew[i]; only when
the trial improves are fit[i], popnew[i], CR[i], F[i] written and the
population updated through set_x and set_v. -/
theorem selectStep_frame (prob : Problem) (i : ℕ) (F CR : ℚ) (tmp : List ℚ) (st : EvState) :
    (prob.compare_fitness (prob.objfun tmp) (st.fit.getD i []) = false →
      selectStep prob i F CR tmp st =
        { st with popnew := st.popnew.set i (st.popold.getD i []) }) ∧
    (prob.compare_fitness (prob.objfun tmp) (st.fit.getD i []) = true →
      (selectStep prob i F CR tmp st).fit = st.fit.set i (prob.objfun tmp) ∧
      (selectStep prob i F CR tmp st).popnew = st.popnew.set i tmp ∧
      (selectStep prob i F CR tmp st).mcr = st.mcr.set i CR ∧
      (selectStep prob i F CR tmp st).mf = st.mf.set i F ∧
      (selectStep prob i F CR tmp st).pop =
        Population.set_v (Population.set_x prob st.pop i ((st.popnew.set i tmp).getD i []))
          i (List.zipWith (fun a b => a - b) tmp (st.pop.inds.getD i defaultInd).cur_x)) := by
  constructor
  · intro h
    simp only [selectStep]
    rw [h]
    simp
  · intro h
    simp only [selectStep]
    rw [h]
    simp only [if_true]
    split <;> exact ⟨rfl, rfl, rfl, rfl, rfl⟩

/-- C5 witness: with the fixture problem and state, the non-improving trial
[5] (fitness 5, against fit[0] = 4) leaves everything but popnew[0] unchanged. -/
theorem selectStep_frame_witness :
    selectStep probEx 0 0 0 [5] stEx =
      { stEx with popnew := stEx.popnew.set 0 (stEx.popold.getD 0 []) } :=
  (selectStep_frame probEx 0 0 0 [5] stEx).1 (by norm_num [probEx, stEx, lget])

/-- C1 failing input, evaluated on the embedded code: with the fixture problem
(minimise the single coordinate), the individual at cur_x = [4] and an
accepted trial tmp = [1] that also beats the global best, the code writes the
trial [1] to the population via set_x and the velocity [−3] = tmp − cur_x via
set_v, but then assigns gbX the velocity [−3] — tmp was overwritten in place
by the std::transform of line 422 — instead of the accepted trial decision
vector [1]. -/
theorem selectStep_gbX_gets_velocity :
    (selectStep probEx 0 0 0 [1] stEx).gbX = [-3] ∧
    ((selectStep probEx 0 0 0 [1] stEx).pop.inds.getD 0 defaultInd).cur_x = [1] ∧
    ((selectStep probEx 0 0 0 [1] stEx).pop.inds.getD 0 defaultInd).cur_v = [-3] ∧
    (selectStep probEx 0 0 0 [1] stEx).gbX ≠ [1] := by
  norm_num [selectStep, probEx, stEx, indEx, defaultInd, lget,
    Population.set_x, Population.set_v]

/-- C3: after the generation with index gen, the convergence checks run
exactly when gen modulo 40 is non-zero (multiples of 40, including the first
generation gen = 0, are skipped), and the check fires exactly when dx — the
sum over the D components of |best_x[worst][j] − best_x[best][j]| — is below
xtol, or, failing that, when |best_f[worst][0] − best_f[best][0]| is below
ftol; the main loop returns early exactly when the check fires and otherwise
continues with the next generation until the budget is exhausted. -/
theorem checkExit_iff_and_deLoop_step (prob : Problem) (xtol ftol : ℚ) (D gen : ℕ)
    (pop : Population) (s : Streams) (variant adptv Dc NP fuel : ℕ) (st : EvState) :
    (checkExit prob xtol ftol D gen pop = true ↔
      gen % 40 ≠ 0 ∧
        ((∑ j ∈ Finset.range D,
            |lget (pop.inds.getD (pop.get_worst_idx prob) defaultInd).best_x j -
              lget (pop.inds.getD (pop.get_best_idx prob) defaultInd).best_x j|) < xtol ∨
          (¬ (∑ j ∈ Finset.range D,
              |lget (pop.inds.getD (pop.get_worst_idx prob) defaultInd).best_x j -
                lget (pop.inds.getD (pop.get_best_idx prob) defaultInd).best_x j|) < xtol ∧
            |lget (pop.inds.getD (pop.get_worst_idx prob) defaultInd).best_f 0 -
              lget (pop.inds.getD (pop.get_best_idx prob) defaultInd).best_f 0| < ftol))) ∧
    (deLoop s prob variant adptv Dc NP D xtol ftol (fuel + 1) gen st =
      if checkExit prob xtol ftol D gen (genStep s prob variant adptv Dc NP st).pop then
        genStep s prob variant adptv Dc NP st
      else
        deLoop s prob variant adptv Dc NP D xtol ftol fuel (gen + 1)
          (genStep s prob variant adptv Dc NP st)) := by
  constructor
  · have hsum := foldl_add_abs_eq_sum (fun j =>
      |lget (pop.inds.getD (pop.get_worst_idx prob) defaultInd).best_x j -
        lget (pop.inds.getD (pop.get_best_idx prob) defaultInd).best_x j|) D
    simp only [checkExit, ← hsum]
    split_ifs with hg hdx
    · exact iff_of_true rfl ⟨hg, Or.inl hdx⟩
    · rw [decide_eq_true_eq]
      constructor
      · intro hm
        exact ⟨hg, Or.inr ⟨hdx, hm⟩⟩
      · rintro ⟨-, hdx' | ⟨-, hm⟩⟩
        · exact absurd hdx' hdx
        · exact hm
    · exact iff_of_false (by simp) fun h => hg h.1
  · rfl

theorem getD_mem_or_default {α : Type} (l : List α) (i : ℕ) (d : α) :
    l.getD i d ∈ l ∨ l.getD i d = d := by
  by_cases h : i < l.length
  · left
    rw [List.getD_eq_getElem l d h]
    exact List.getElem_mem h
  · right
    simp [List.getD, List.getElem?_eq_none (le_of_not_lt h)]

theorem repairLoop_length (s : Streams) (lb ub : List ℚ) :
    ∀ rem i2 tmp c, ((repairLoop s lb ub rem i2 tmp c).1).length = tmp.length := by
  intro rem
  induction rem with
  | zero => intro i2 tmp c; rfl
  | succ m ih =>
    intro i2 tmp c
    simp only [repairLoop]
    split
    · rw [ih]
      exact List.length_set tmp i2 _
    · exact ih _ _ _

theorem repairLoop_lget_lt (s : Streams) (lb ub : List ℚ) :
    ∀ rem i2 tmp c j, j < i2 →
      lget (repairLoop s lb ub rem i2 tmp c).1 j = lget tmp j := by
  intro rem
  induction rem with
  | zero => intro i2 tmp c j _; rfl
  | succ m ih =>
    intro i2 tmp c j hj
    simp only [repairLoop]
    split
    · rw [ih _ _ _ j (by omega)]
      exact lget_set_ne tmp i2 j _ (by omega)
    · exact ih _ _ _ j (by omega)

theorem repairLoop_lget_ge (s : Streams) (lb ub : List ℚ) :
    ∀ rem i2 tmp c j, i2 + rem ≤ j →
      lget (repairLoop s lb ub rem i2 tmp c).1 j = lget tmp j := by
  intro rem
  induction rem with
  | zero => intro i2 tmp c j _; rfl
  | succ m ih =>
    intro i2 tmp c j hj
    simp only [repairLoop]
    split
    · rw [ih _ _ _ j (by omega)]
      exact lget_set_ne tmp i2 j _ (by omega)
    · exact ih _ _ _ j (by omega)

theorem repairLoop_inBox (s : Streams) (lb ub : List ℚ) (hs : s.inRange)
    (hlu : ∀ j, lget lb j ≤ lget ub j) :
    ∀ rem i2 tmp c j, i2 ≤ j → j < i2 + rem → j < tmp.length →
      lget lb j ≤ lget (repairLoop s lb ub rem i2 tmp c).1 j ∧
        lget (repairLoop s lb ub rem i2 tmp c).1 j ≤ lget ub j := by
  intro rem
  induction rem with
  | zero => intro i2 tmp c j h1 h2 h3; omega
  | succ m ih =>
    intro i2 tmp c j h1 h2 h3
    simp only [repairLoop]
    split
    · rcases Nat.eq_or_lt_of_le h1 with heq | hlt
      · cases heq
        rw [repairLoop_lget_lt s lb ub m (i2+1) _ _ i2 (by omega)]
        rw [lget_set_self tmp i2 _ h3]
        have hu := hs c.du
        have hb := hlu i2
        constructor
        · simp only [uniformReal, nextU01]
          nlinarith [hu.1, hu.2, hb]
        · simp only [uniformReal, nextU01]
          nlinarith [hu.1, hu.2, hb]
      · exact ih (i2+1) _ _ j (by omega) (by omega)
          (by rw [List.length_set]; exact h3)
    · rename_i hcond
      rcases Nat.eq_or_lt_of_le h1 with heq | hlt
      · cases heq
        rw [repairLoop_lget_lt s lb ub m (i2+1) _ _ i2 (by omega)]
        push_neg at hcond
        exact hcond
      · exact ih (i2+1) _ _ j (by omega) (by omega) h3

theorem expLoop_len_and_ge (s : Streams) (upd : ℕ → List ℚ → List ℚ) (Dc : ℕ) (CR : ℚ)
    (hlen : ∀ n t, (upd n t).length = t.length)
    (hne : ∀ n t j, j ≠ n → lget (upd n t) j = lget t j) :
    ∀ fuel n L tmp c, n < Dc →
      ((expLoop s upd Dc CR fuel n L tmp c).1.length = tmp.length ∧
        ∀ j, Dc ≤ j → lget (expLoop s upd Dc CR fuel n L tmp c).1 j = lget tmp j) := by
  intro fuel
  induction fuel with
  | zero => intro n L tmp c _; exact ⟨rfl, fun j _ => rfl⟩
  | succ m ih =>
    intro n L tmp c hn
    have hDc : 0 < Dc := lt_of_le_of_lt (Nat.zero_le n) hn
    simp only [expLoop]
    split
    · have h2 := ih ((n+1) % Dc) (L+1) (upd n tmp) (nextU01 s c).2 (Nat.mod_lt _ hDc)
      exact ⟨h2.1.trans (hlen n tmp),
        fun j hj => (h2.2 j hj).trans (hne n tmp j (by omega))⟩
    · exact ⟨hlen n tmp, fun j hj => hne n tmp j (by omega)⟩

theorem binLoop_len_and_ge (s : Streams) (upd : ℕ → List ℚ → List ℚ) (Dc : ℕ) (CR : ℚ)
    (hlen : ∀ n t, (upd n t).length = t.length)
    (hne : ∀ n t j, j ≠ n → lget (upd n t) j = lget t j) :
    ∀ rem L n tmp c, n < Dc →
      ((binLoop s upd Dc CR rem L n tmp c).1.length = tmp.length ∧
        ∀ j, Dc ≤ j → lget (binLoop s upd Dc CR rem L n tmp c).1 j = lget tmp j) := by
  intro rem
  induction rem with
  | zero => intro L n tmp c _; exact ⟨rfl, fun j _ => rfl⟩
  | succ m ih =>
    intro L n tmp c hn
    have hDc : 0 < Dc := lt_of_le_of_lt (Nat.zero_le n) hn
    simp only [binLoop]
    split
    · have h2 := ih (L+1) ((n+1) % Dc) (upd n tmp) (nextU01 s c).2 (Nat.mod_lt _ hDc)
      exact ⟨h2.1.trans (hlen n tmp),
        fun j hj => (h2.2 j hj).trans (hne n tmp j (by omega))⟩
    · exact ih (L+1) ((n+1) % Dc) tmp (nextU01 s c).2 (Nat.mod_lt _ hDc)

theorem mutate_len_and_ge (s : Streams) (variant Dc : ℕ) (F CR : ℚ)
    (popold : List (List ℚ)) (gbIter : List ℚ) (i r1 r2 r3 r4 r5 r6 r7 : ℕ) (c : Cnt)
    (hDc : 0 < Dc) :
    ((mutate s variant Dc F CR popold gbIter i r1 r2 r3 r4 r5 r6 r7 c).1.length =
        (popold.getD i []).length ∧
      ∀ j, Dc ≤ j →
        lget (mutate s variant Dc F CR popold gbIter i r1 r2 r3 r4 r5 r6 r7 c).1 j =
          lget (popold.getD i []) j) := by
  have hn0 : (uniformInt s 0 (Dc - 1) c).1 < Dc := by
    have hone : Dc - 1 + 1 - 0 = Dc := by omega
    simp only [uniformInt, nextUInt, hone]
    have := Nat.mod_lt (s.uint c.ui) hDc
    omega
  unfold mutate
  by_cases h1 : variant = 1
  · rw [if_pos h1]
    exact expLoop_len_and_ge s _ Dc CR (fun n t => List.length_set t n _)
      (fun n t j hj => lget_set_ne t n j _ hj) Dc _ 0 _ _ hn0
  rw [if_neg h1]
  by_cases h2 : variant = 2
  · rw [if_pos h2]
    exact expLoop_len_and_ge s _ Dc CR (fun n t => List.length_set t n _)
      (fun n t j hj => lget_set_ne t n j _ hj) Dc _ 0 _ _ hn0
  rw [if_neg h2]
  by_cases h3 : variant = 3
  · rw [if_pos h3]
    exact expLoop_len_and_ge s _ Dc CR (fun n t => List.length_set t n _)
      (fun n t j hj => lget_set_ne t n j _ hj) Dc _ 0 _ _ hn0
  rw [if_neg h3]
  by_cases h4 : variant = 4
  · rw [if_pos h4]
    exact expLoop_len_and_ge s _ Dc CR (fun n t => List.length_set t n _)
      (fun n t j hj => lget_set_ne t n j _ hj) Dc _ 0 _ _ hn0
  rw [if_neg h4]
  by_cases h5 : variant = 5
  · rw [if_pos h5]
    exact expLoop_len_and_ge s _ Dc CR (fun n t => List.length_set t n _)
      (fun n t j hj => lget_set_ne t n j _ hj) Dc _ 0 _ _ hn0
  rw [if_neg h5]
  by_cases h6 : variant = 6
  · rw [if_pos h6]
    exact binLoop_len_and_ge s _ Dc CR (fun n t => List.length_set t n _)
      (fun n t j hj => lget_set_ne t n j _ hj) Dc 0 _ _ _ hn0
  rw [if_neg h6]
  by_cases h7 : variant = 7
  · rw [if_pos h7]
    exact binLoop_len_and_ge s _ Dc CR (fun n t => List.length_set t n _)
      (fun n t j hj => lget_set_ne t n j _ hj) Dc 0 _ _ _ hn0
  rw [if_neg h7]
  by_cases h8 : variant = 8
  · rw [if_pos h8]
    exact binLoop_len_and_ge s _ Dc CR (fun n t => List.length_set t n _)
      (fun n t j hj => lget_set_ne t n j _ hj) Dc 0 _ _ _ hn0
  rw [if_neg h8]
  by_cases h9 : variant = 9
  · rw [if_pos h9]
    exact binLoop_len_and_ge s _ Dc CR (fun n t => List.length_set t n _)
      (fun n t j hj => lget_set_ne t n j _ hj) Dc 0 _ _ _ hn0
  rw [if_neg h9]
  by_cases h10 : variant = 10
  · rw [if_pos h10]
    exact binLoop_len_and_ge s _ Dc CR (fun n t => List.length_set t n _)
      (fun n t j hj => lget_set_ne t n j _ hj) Dc 0 _ _ _ hn0
  rw [if_neg h10]
  by_cases h11 : variant = 11
  · rw [if_pos h11]
    exact expLoop_len_and_ge s _ Dc CR (fun n t => List.length_set t n _)
      (fun n t j hj => lget_set_ne t n j _ hj) Dc _ 0 _ _ hn0
  rw [if_neg h11]
  by_cases h12 : variant = 12
  · rw [if_pos h12]
    exact binLoop_len_and_ge s _ Dc CR (fun n t => List.length_set t n _)
      (fun n t j hj => lget_set_ne t n j _ hj) Dc 0 _ _ _ hn0
  rw [if_neg h12]
  by_cases h13 : variant = 13
  · rw [if_pos h13]
    exact expLoop_len_and_ge s _ Dc CR (fun n t => List.length_set t n _)
      (fun n t j hj => lget_set_ne t n j _ hj) Dc _ 0 _ _ hn0
  rw [if_neg h13]
  by_cases h14 : variant = 14
  · rw [if_pos h14]
    exact binLoop_len_and_ge s _ Dc CR (fun n t => List.length_set t n _)
      (fun n t j hj => lget_set_ne t n j _ hj) Dc 0 _ _ _ hn0
  rw [if_neg h14]
  by_cases h15 : variant = 15
  · rw [if_pos h15]
    exact expLoop_len_and_ge s _ Dc CR (fun n t => List.length_set t n _)
      (fun n t j hj => lget_set_ne t n j _ hj) Dc _ 0 _ _ hn0
  rw [if_neg h15]
  by_cases h16 : variant = 16
  · rw [if_pos h16]
    exact binLoop_len_and_ge s _ Dc CR (fun n t => List.length_set t n _)
      (fun n t j hj => lget_set_ne t n j _ hj) Dc 0 _ _ _ hn0
  rw [if_neg h16]
  by_cases h17 : variant = 17
  · rw [if_pos h17]
    exact expLoop_len_and_ge s _ Dc CR (fun n t => List.length_set t n _)
      (fun n t j hj => lget_set_ne t n j _ hj) Dc _ 0 _ _ hn0
  rw [if_neg h17]
  by_cases h18 : variant = 18
  · rw [if_pos h18]
    exact binLoop_len_and_ge s _ Dc CR (fun n t => List.length_set t n _)
      (fun n t j hj => lget_set_ne t n j _ hj) Dc 0 _ _ _ hn0
  rw [if_neg h18]
  exact ⟨rfl, fun j _ => rfl⟩

theorem trial_after_repair_inBox (s : Streams) (lb ub : List ℚ) (hs : s.inRange)
    (hlu : ∀ j, lget lb j ≤ lget ub j) (Dc : ℕ)
    (tmp0 base : List ℚ) (c : Cnt)
    (hlen0 : tmp0.length = base.length)
    (hge : ∀ j, Dc ≤ j → lget tmp0 j = lget base j)
    (hbase : inBox lb ub base) :
    inBox lb ub (repair s Dc lb ub tmp0 c).1 := by
  intro j hj
  unfold repair at hj ⊢
  rw [repairLoop_length s lb ub Dc 0 tmp0 c] at hj
  by_cases hjDc : j < Dc
  · exact repairLoop_inBox s lb ub hs hlu Dc 0 tmp0 c j (Nat.zero_le j) (by omega) hj
  · rw [repairLoop_lget_ge s lb ub Dc 0 tmp0 c j (by omega), hge j (by omega)]
    exact hbase j (by omega)

theorem set_x_cur_x_inBox (lb ub : List ℚ) (prob : Problem) (pop : Population) (i : ℕ)
    (x : List ℚ) (hx : inBox lb ub x)
    (hp : ∀ ind ∈ pop.inds, inBox lb ub ind.cur_x) :
    ∀ ind ∈ (Population.set_x prob pop i x).inds, inBox lb ub ind.cur_x := by
  intro ind hmem
  simp only [Population.set_x] at hmem
  split at hmem <;>
  · simp only at hmem
    rcases List.mem_or_eq_of_mem_set hmem with hin | heq
    · exact hp ind hin
    · subst heq
      split <;> exact hx

theorem set_v_cur_x_inBox (lb ub : List ℚ) (pop : Population) (i : ℕ) (v : List ℚ)
    (hp : ∀ ind ∈ pop.inds, inBox lb ub ind.cur_x) :
    ∀ ind ∈ (Population.set_v pop i v).inds, inBox lb ub ind.cur_x := by
  intro ind hmem
  simp only [Population.set_v] at hmem
  rcases List.mem_or_eq_of_mem_set hmem with hin | heq
  · exact hp ind hin
  · subst heq
    rcases getD_mem_or_default pop.inds i defaultInd with hin | hdef
    · exact hp (pop.inds.getD i defaultInd) hin
    · show inBox lb ub (pop.inds.getD i defaultInd).cur_x
      rw [hdef]
      exact inBox_nil lb ub

theorem selectStep_inBox (lb ub : List ℚ) (prob : Problem) (i : ℕ) (F CR : ℚ)
    (tmp : List ℚ) (st : EvState) (ht : inBox lb ub tmp) (h : stInBox lb ub st) :
    stInBox lb ub (selectStep prob i F CR tmp st) := by
  obtain ⟨ho, hn, hp⟩ := h
  have hpopnew : ∀ y ∈ st.popnew.set i tmp, inBox lb ub y := by
    intro y hy
    rcases List.mem_or_eq_of_mem_set hy with hin | heq
    · exact hn y hin
    · subst heq; exact ht
  have hxarg : inBox lb ub ((st.popnew.set i tmp).getD i []) := by
    rcases getD_mem_or_default (st.popnew.set i tmp) i [] with hin | hdef
    · exact hpopnew _ hin
    · rw [hdef]; exact inBox_nil lb ub
  have hpop1 : ∀ ind ∈ (Population.set_v
      (Population.set_x prob st.pop i ((st.popnew.set i tmp).getD i [])) i
      (List.zipWith (fun a b => a - b) tmp (st.pop.inds.getD i defaultInd).cur_x)).inds,
      inBox lb ub ind.cur_x :=
    set_v_cur_x_inBox lb ub _ i _ (set_x_cur_x_inBox lb ub prob st.pop i _ hxarg hp)
  simp only [selectStep]
  split
  · split
    · exact ⟨ho, hpopnew, hpop1⟩
    · exact ⟨ho, hpopnew, hpop1⟩
  · refine ⟨ho, ?_, hp⟩
    intro y hy
    rcases List.mem_or_eq_of_mem_set hy with hin | heq
    · exact hn y hin
    · subst heq
      rcases getD_mem_or_default st.popold i [] with hin | hdef
      · exact ho _ hin
      · rw [hdef]; exact inBox_nil lb ub

theorem demeStep_inBox (s : Streams) (prob : Problem) (variant adptv Dc NP i : ℕ)
    (hs : s.inRange) (hlu : ∀ j, lget prob.lb j ≤ lget prob.ub j) (hDc : 0 < Dc)
    (st : EvState) (h : stInBox prob.lb prob.ub st) :
    stInBox prob.lb prob.ub (demeStep s prob variant adptv Dc NP i st) := by
  have hpo : inBox prob.lb prob.ub (st.popold.getD i []) := by
    rcases getD_mem_or_default st.popold i [] with hin | hdef
    · exact h.1 _ hin
    · rw [hdef]; exact inBox_nil prob.lb prob.ub
  simp only [demeStep]
  refine selectStep_inBox prob.lb prob.ub prob i _ _ _ _ ?_ ⟨h.1, h.2.1, h.2.2⟩
  refine trial_after_repair_inBox s prob.lb prob.ub hs hlu Dc _ (st.popold.getD i [])
    _ ?_ ?_ hpo
  · exact (mutate_len_and_ge s variant Dc _ _ st.popold st.gbIter i _ _ _ _ _ _ _ _ hDc).1
  · exact (mutate_len_and_ge s variant Dc _ _ st.popold st.gbIter i _ _ _ _ _ _ _ _ hDc).2

theorem sweep_inBox (s : Streams) (prob : Problem) (variant adptv Dc NP : ℕ)
    (hs : s.inRange) (hlu : ∀ j, lget prob.lb j ≤ lget prob.ub j) (hDc : 0 < Dc)
    (st : EvState) (h : stInBox prob.lb prob.ub st) :
    stInBox prob.lb prob.ub (sweep s prob variant adptv Dc NP st) := by
  unfold sweep
  have : ∀ (l : List ℕ) (st : EvState), stInBox prob.lb prob.ub st →
      stInBox prob.lb prob.ub
        (l.foldl (fun t i => demeStep s prob variant adptv Dc NP i t) st) := by
    intro l
    induction l with
    | nil => intro st h; exact h
    | cons a l ih =>
      intro st h
      exact ih _ (demeStep_inBox s prob variant adptv Dc NP a hs hlu hDc st h)
  exact this _ st h

theorem genStep_inBox (s : Streams) (prob : Problem) (variant adptv Dc NP : ℕ)
    (hs : s.inRange) (hlu : ∀ j, lget prob.lb j ≤ lget prob.ub j) (hDc : 0 < Dc)
    (st : EvState) (h : stInBox prob.lb prob.ub st) :
    stInBox prob.lb prob.ub (genStep s prob variant adptv Dc NP st) := by
  unfold genStep
  have h1 := sweep_inBox s prob variant adptv Dc NP hs hlu hDc st h
  exact ⟨h1.2.1, h1.1, h1.2.2⟩

theorem deLoop_inBox (s : Streams) (prob : Problem) (variant adptv Dc NP D : ℕ)
    (xtol ftol : ℚ) (hs : s.inRange) (hlu : ∀ j, lget prob.lb j ≤ lget prob.ub j)
    (hDc : 0 < Dc) :
    ∀ fuel gen st, stInBox prob.lb prob.ub st →
      stInBox prob.lb prob.ub (deLoop s prob variant adptv Dc NP D xtol ftol fuel gen st) := by
  intro fuel
  induction fuel with
  | zero => intro gen st h; exact h
  | succ m ih =>
    intro gen st h
    simp only [deLoop]
    have h1 := genStep_inBox s prob variant adptv Dc NP hs hlu hDc st h
    split
    · exact h1
    · exact ih _ _ h1

/-- C4: every trial component below Dc that leaves the box is redrawn into
[lb[j], ub[j]] by the feasibility repair before evaluation, so the repaired
trial always lies in the box on its continuous part; consequently, when the
bounds are consistent, the uniform stream stays in [0,1), and every current
decision vector of the input population lies in the box [lb, ub], then after
evolve returns every current decision vector of the returned population still
lies in [lb, ub]. -/
theorem evolve_preserves_box (a : DeSelfAdaptive) (s : Streams) (prob : Problem)
    (hs : s.inRange) (hlu : ∀ j, lget prob.lb j ≤ lget prob.ub j) :
    (∀ (Dc : ℕ) (tmp : List ℚ) (c : Cnt) (j : ℕ), j < Dc → j < tmp.length →
      lget prob.lb j ≤ lget (repair s Dc prob.lb prob.ub tmp c).1 j ∧
        lget (repair s Dc prob.lb prob.ub tmp c).1 j ≤ lget prob.ub j) ∧
    (∀ (pop : Population) (c : Cnt) (res : DeSelfAdaptive × Population × Cnt),
      (∀ ind ∈ pop.inds, inBox prob.lb prob.ub ind.cur_x) →
      a.evolve s prob pop c = .ok res →
      ∀ ind ∈ res.2.1.inds, inBox prob.lb prob.ub ind.cur_x) := by
  constructor
  · intro Dc tmp c j hj hjl
    exact repairLoop_inBox s prob.lb prob.ub hs hlu Dc 0 tmp c j (Nat.zero_le j)
      (by omega) hjl
  · intro pop c res hp hok
    simp only [DeSelfAdaptive.evolve] at hok
    split_ifs at hok with hDc0 hc hf hNP hgen
    all_goals cases hok
    all_goals try exact hp
    · have hst0 : stInBox prob.lb prob.ub
          { pop := pop, popold := pop.inds.map (fun ind => ind.cur_x),
            popnew := pop.inds.map (fun ind => ind.cur_x),
            fit := pop.inds.map (fun ind => ind.cur_f),
            mf := (initFCR s a.m_variant_adptv pop.inds.length a.m_restart a.m_cr a.m_f c).2.1,
            mcr := (initFCR s a.m_variant_adptv pop.inds.length a.m_restart a.m_cr a.m_f c).1,
            gbX := pop.champion_x, gbfit := pop.champion_f,
            gbIter := pop.champion_x,
            cnt := (initFCR s a.m_variant_adptv pop.inds.length a.m_restart a.m_cr a.m_f c).2.2 } := by
        refine ⟨?_, ?_, hp⟩ <;>
        · intro x hx
          rw [List.mem_map] at hx
          obtain ⟨ind, hind, rfl⟩ := hx
          exact hp ind hind
      exact (deLoop_inBox s prob a.m_variant a.m_variant_adptv
        (prob.dimension - prob.i_dimension) pop.inds.length prob.dimension
        a.m_xtol a.m_ftol hs hlu (by omega) a.m_gen 0 _ hst0).2.2

/-- C4 witness: with the fixture problem, streams and the in-box population of
8 individuals, the decision vector of the fixture individual of the population
evolve returns lies in the box. -/
theorem evolve_preserves_box_witness : inBox probEx.lb probEx.ub indEx1.cur_x := by
  have hs : sEx.inRange := by
    intro k
    constructor <;> norm_num [sEx]
  have hlu : ∀ j, lget probEx.lb j ≤ lget probEx.ub j := by
    intro j
    rcases j with _ | j <;> norm_num [probEx, lget, List.getD]
  have hp : ∀ ind ∈ popEx8.inds, inBox probEx.lb probEx.ub ind.cur_x := by
    intro ind hind
    rw [popEx8, List.mem_replicate] at hind
    rw [hind.2]
    intro j hj
    rcases j with _ | j <;> norm_num [indEx1, probEx, lget, List.getD] at hj ⊢
  have hmem : indEx1 ∈ (algoEx0, popEx8, (⟨0, 0, 0⟩ : Cnt)).2.1.inds :=
    List.mem_replicate.mpr ⟨by norm_num, rfl⟩
  exact (evolve_preserves_box algoEx0 sEx probEx hs hlu).2 popEx8 ⟨0, 0, 0⟩
    (algoEx0, popEx8, (⟨0, 0, 0⟩ : Cnt)) hp rfl indEx1 hmem

end Pagmo
